import Mathlib

/-!
Shallow embedding of the password-based encryption container of
`src/crypt.rs` (functions `encrypt` and `decrypt`), together with the
byte-level helpers they use.  Bytes are modelled as `Nat` (encoders
produce values `< 256`), streams as `List Nat`, and fallible operations
as `Except`/`Option`.  The external collaborators (Argon2 key
derivation, the XChaCha20-Poly1305 AEAD, the zstd decompressor) are
modelled as a record of functions, instantiated with a concrete ideal
implementation for evaluation.
-/

/-- The 6-byte magic constant `b"JJTOOL"` (`crypt.rs` line 14). -/
def MAGIC : List Nat := [74, 74, 84, 79, 79, 76]

/-- The current container version constant (`crypt.rs` line 15). -/
def VERSION : Nat := 2

/-- Little-endian encoding of a 16-bit value, as produced by
`u16::to_le_bytes`. -/
def le16 (n : Nat) : List Nat := [n % 256, n / 256 % 256]

/-- Little-endian encoding of a 32-bit value, as produced by
`u32::to_le_bytes`. -/
def le32 (n : Nat) : List Nat :=
  [n % 256, n / 256 % 256, n / 65536 % 256, n / 16777216 % 256]

/-- Little-endian encoding of a 64-bit value, as produced by
`u64::to_le_bytes`. -/
def le64 (n : Nat) : List Nat :=
  [n % 256, n / 256 % 256, n / 65536 % 256, n / 16777216 % 256,
   n / 4294967296 % 256, n / 1099511627776 % 256,
   n / 281474976710656 % 256, n / 72057594037927936 % 256]

/-- Decoding of two little-endian bytes (`u16::from_le_bytes`). -/
def fromLe16 (a b : Nat) : Nat := a + 256 * b

/-- Decoding of four little-endian bytes (`u32::from_le_bytes`),
as used by `read_u32` in `crypt.rs`. -/
def fromLe32 (a b c d : Nat) : Nat :=
  a + 256 * b + 65536 * c + 16777216 * d

/-- Decoding of eight little-endian bytes (`u64::from_le_bytes`),
as used by `read_u64` in `crypt.rs`. -/
def fromLe64 (a b c d e f g h : Nat) : Nat :=
  a + 256 * b + 65536 * c + 16777216 * d +
  4294967296 * e + 1099511627776 * f +
  281474976710656 * g + 72057594037927936 * h

/-- Model of `Read::read_exact` on a byte stream: returns the first `k`
bytes and the remaining stream, or fails (io `UnexpectedEof`) when fewer
than `k` bytes remain. -/
def readExact (k : Nat) (s : List Nat) : Option (List Nat × List Nat) :=
  if k ≤ s.length then some (s.take k, s.drop k) else none

/-- Error outcomes of `encrypt`/`decrypt` in `crypt.rs`.  Each
constructor corresponds to one way the Rust function terminates other
than `Ok`: the `bail!`/`ensure!`/`?` early returns, and `panicked` for
the `.unwrap()` on the AEAD `decrypt` result at line 208 (a Rust panic,
not an `Err` return). -/
inductive Err
  | truncatedInput
  | wrongMagic
  | unsupportedVersion (v : Nat)
  | invalidParams
  | kdfFailed
  | panicked
  | truncatedPayload
  | zstdError
  deriving DecidableEq, Repr

/-- Modelled from the spec: validity of the Argon2 cost parameters as
checked by the external KDF library's `Params::new` (not part of this
repository).  The spec says key derivation fails with a config error if
the cost parameters are invalid, for example zero parallelism; the
library requires a minimum memory cost of 8 KiB and at least one pass
and one lane. -/
def paramsValid (m t p : Nat) : Bool := 8 ≤ m && 1 ≤ t && 1 ≤ p

/-- The external collaborators used by `encrypt`/`decrypt`: Argon2id key
derivation (fallible), the XChaCha20-Poly1305 AEAD seal and open
(`open` fails on tag mismatch), and the zstd decompressor.  Modelled
from the spec: these live in external crates, not in this repository's
sources, so they enter the embedding as parameters. -/
structure Libs where
  deriveKey : List Nat → List Nat → Nat → Nat → Nat → Option (List Nat)
  aeadSeal : List Nat → List Nat → List Nat → List Nat
  aeadOpen : List Nat → List Nat → List Nat → Option (List Nat)
  zstdDecode : List Nat → Option (List Nat)

/-- An ideal, executable instantiation of the collaborators: the derived
key is the password itself, sealing appends key and nonce as an
authentication tag, opening checks and strips that tag, and the
decompressor is the identity. -/
def idealLibs : Libs where
  deriveKey pw _salt _m _t _p := some pw
  aeadSeal key nonce pt := pt ++ key ++ nonce
  aeadOpen key nonce ct :=
    let tag := key ++ nonce
    if ct.length ≥ tag.length && ct.drop (ct.length - tag.length) == tag then
      some (ct.take (ct.length - tag.length))
    else
      none
  zstdDecode data := some data

/-- Payload packaging for the file branch of `encrypt`
(`crypt.rs` lines 116-132): discriminator byte `Kind::File = 0`, the
extension length saturated to `u16::MAX` (`u16::try_from(..).unwrap_or(u16::MAX)`),
the extension bytes sliced to that length (`&ext_bytes[..ext_len as usize]`),
then the file bytes. -/
def packFile (extBytes fileBytes : List Nat) : List Nat :=
  let extLen := if extBytes.length ≤ 65535 then extBytes.length else 65535
  0 :: (le16 extLen ++ (extBytes.take extLen ++ fileBytes))

deriving instance DecidableEq for Except

/-- Model of one `w.write_all(..)` call on the buffered writer: the
output stream grows by the written bytes. -/
def writeAll (w bytes : List Nat) : List Nat := w ++ bytes

/-- The container stream produced by the sequence of `write_all` calls
in `encrypt` (`crypt.rs` lines 146-155): magic, version, the three cost
integers, salt, nonce, the 8-byte ciphertext length, the ciphertext. -/
def containerBytes (m t p : Nat) (salt nonce ct : List Nat) : List Nat :=
  writeAll (writeAll (writeAll (writeAll (writeAll (writeAll (writeAll
    (writeAll (writeAll [] MAGIC) [VERSION]) (le32 m)) (le32 t)) (le32 p))
    salt) nonce) (le64 ct.length)) ct

/-- Result of one run of `encrypt`: the produced container (or the
error), and whether the `password.zeroize()` / `key.zeroize()` calls at
`crypt.rs` lines 139-140 were executed before returning. -/
structure EncRun where
  result : Except Err (List Nat)
  pwZeroized : Bool
  keyZeroized : Bool
  deriving DecidableEq, Repr

/-- The file branch of `encrypt` (`crypt.rs` lines 46-158), with the
prompted password and the random salt and nonce supplied as inputs.
Control flow is transcribed in source order: validate the KDF
parameters (early `?` return), derive the key (early `?` return), build
the package, seal it, zeroize password and key, then write the
container.  On the early error returns the zeroize calls have not run. -/
def encryptModel (lib : Libs) (password salt nonce content extBytes : List Nat)
    (m t p : Nat) : EncRun :=
  if ¬ paramsValid m t p then
    ⟨Except.error Err.invalidParams, false, false⟩
  else
    match lib.deriveKey password salt m t p with
    | none => ⟨Except.error Err.kdfFailed, false, false⟩
    | some key =>
      let pkg := packFile extBytes content
      let ct := lib.aeadSeal key nonce pkg
      ⟨Except.ok (containerBytes m t p salt nonce ct), true, true⟩

/-- The parsed header of a container, as read by `decrypt`
(`crypt.rs` lines 163-193); `rest` is whatever input remained after the
declared ciphertext was read (the code never reads or checks it). -/
structure Header where
  version : Nat
  mCost : Nat
  tCost : Nat
  pCost : Nat
  salt : List Nat
  nonce : List Nat
  ciphertext : List Nat
  rest : List Nat
  deriving DecidableEq, Repr

/-- Header parsing in `decrypt` (`crypt.rs` lines 163-193): magic check,
version check against the supported set, the three cost integers, salt,
nonce, the declared ciphertext length, then exactly that many ciphertext
bytes.  Each `read_exact` that runs off the end of the stream is an io
error, modelled as `truncatedInput`. -/
def parseHeader (input : List Nat) : Except Err Header :=
  match readExact 6 input with
  | none => Except.error Err.truncatedInput
  | some (magic, r1) =>
    if magic ≠ MAGIC then Except.error Err.wrongMagic
    else
      match readExact 1 r1 with
      | none => Except.error Err.truncatedInput
      | some (verBytes, r2) =>
        let v := verBytes.headD 0
        if v ≠ 1 ∧ v ≠ VERSION then Except.error (Err.unsupportedVersion v)
        else
          match readExact 4 r2 with
          | none => Except.error Err.truncatedInput
          | some (mB, r3) =>
            match readExact 4 r3 with
            | none => Except.error Err.truncatedInput
            | some (tB, r4) =>
              match readExact 4 r4 with
              | none => Except.error Err.truncatedInput
              | some (pB, r5) =>
                match readExact 16 r5 with
                | none => Except.error Err.truncatedInput
                | some (salt, r6) =>
                  match readExact 24 r6 with
                  | none => Except.error Err.truncatedInput
                  | some (nonce, r7) =>
                    match readExact 8 r7 with
                    | none => Except.error Err.truncatedInput
                    | some (lenB, r8) =>
                      let ctLen := fromLe64 (lenB.getD 0 0) (lenB.getD 1 0)
                        (lenB.getD 2 0) (lenB.getD 3 0) (lenB.getD 4 0)
                        (lenB.getD 5 0) (lenB.getD 6 0) (lenB.getD 7 0)
                      match readExact ctLen r8 with
                      | none => Except.error Err.truncatedInput
                      | some (ct, r9) =>
                        Except.ok
                          ⟨v,
                           fromLe32 (mB.getD 0 0) (mB.getD 1 0) (mB.getD 2 0)
                             (mB.getD 3 0),
                           fromLe32 (tB.getD 0 0) (tB.getD 1 0) (tB.getD 2 0)
                             (tB.getD 3 0),
                           fromLe32 (pB.getD 0 0) (pB.getD 1 0) (pB.getD 2 0)
                             (pB.getD 3 0),
                           salt, nonce, ct, r9⟩

/-- What `decrypt` reconstructs from a decrypted payload: a single file
(the recovered extension bytes and content bytes), or an extracted
directory tree (carried as the decompressed archive bytes). -/
inductive DecOut
  | file (ext : List Nat) (bytes : List Nat)
  | dir (decoded : List Nat)
  deriving DecidableEq, Repr

/-- The legacy version-1 unpackager (`crypt.rs` lines 215-241):
a 2-byte extension length, the extension, then the file bytes, each
length-checked with `ensure!` before slicing. -/
def unpackV1 (pkg : List Nat) : Except Err DecOut :=
  if pkg.length < 2 then Except.error Err.truncatedPayload
  else
    let extLen := fromLe16 (pkg.getD 0 0) (pkg.getD 1 0)
    if pkg.length < 2 + extLen then Except.error Err.truncatedPayload
    else Except.ok (DecOut.file ((pkg.drop 2).take extLen) (pkg.drop (2 + extLen)))

/-- The version-2 unpackager (`crypt.rs` lines 244-301): a discriminator
byte, then for `kind == Kind::File` an extension-prefixed file, and for
every other discriminator value the directory branch (name-length
parse, zstd decode of the remainder).  Both branches `ensure!` that
`pkg.len() >= 3 + len + 1` before slicing. -/
def unpackV2 (lib : Libs) (pkg : List Nat) : Except Err DecOut :=
  if pkg.length < 1 then Except.error Err.truncatedPayload
  else
    let kind := pkg.getD 0 0
    if kind = 0 then
      if pkg.length < 1 + 2 then Except.error Err.truncatedPayload
      else
        let extLen := fromLe16 (pkg.getD 1 0) (pkg.getD 2 0)
        if pkg.length < 3 + extLen + 1 then Except.error Err.truncatedPayload
        else Except.ok (DecOut.file ((pkg.drop 3).take extLen) (pkg.drop (3 + extLen)))
    else
      if pkg.length < 1 + 2 then Except.error Err.truncatedPayload
      else
        let nameLen := fromLe16 (pkg.getD 1 0) (pkg.getD 2 0)
        if pkg.length < 3 + nameLen + 1 then Except.error Err.truncatedPayload
        else
          match lib.zstdDecode (pkg.drop (3 + nameLen)) with
          | none => Except.error Err.zstdError
          | some decoded => Except.ok (DecOut.dir decoded)

/-- Cryptographic work performed during a run of `decrypt`: a key
derivation, or an AEAD open. -/
inductive CryptoEvent
  | kdf
  | aead
  deriving DecidableEq, Repr

/-- Result of one run of `decrypt`: the outcome, whether the
`password.zeroize()` / `key.zeroize()` calls at `crypt.rs` lines 211-212
were executed before termination, and the cryptographic operations that
were attempted, in order. -/
structure DecRun where
  result : Except Err DecOut
  pwZeroized : Bool
  keyZeroized : Bool
  events : List CryptoEvent
  deriving DecidableEq, Repr

/-- `decrypt` (`crypt.rs` lines 160-303), with the prompted password
supplied as an input: parse the header, validate the stored KDF
parameters, derive the key, open the ciphertext (the `.unwrap()` at
line 208 panics on authentication failure), zeroize password and key,
then unpack the payload by version. -/
def decryptModel (lib : Libs) (input password : List Nat) : DecRun :=
  match parseHeader input with
  | Except.error e => ⟨Except.error e, false, false, []⟩
  | Except.ok hd =>
    if ¬ paramsValid hd.mCost hd.tCost hd.pCost then
      ⟨Except.error Err.invalidParams, false, false, []⟩
    else
      match lib.deriveKey password hd.salt hd.mCost hd.tCost hd.pCost with
      | none => ⟨Except.error Err.kdfFailed, false, false, [CryptoEvent.kdf]⟩
      | some key =>
        match lib.aeadOpen key hd.nonce hd.ciphertext with
        | none =>
          ⟨Except.error Err.panicked, false, false,
           [CryptoEvent.kdf, CryptoEvent.aead]⟩
        | some pkg =>
          let out :=
            if hd.version = 1 then unpackV1 pkg else unpackV2 lib pkg
          ⟨out, true, true, [CryptoEvent.kdf, CryptoEvent.aead]⟩

/-- Encrypt a file's content and extension with one password, then run
`decrypt` on the produced container with another password. -/
def roundtripFile (lib : Libs) (pwEnc pwDec salt nonce content extBytes : List Nat)
    (m t p : Nat) : Except Err DecOut :=
  match (encryptModel lib pwEnc salt nonce content extBytes m t p).result with
  | Except.error e => Except.error e
  | Except.ok container => (decryptModel lib container pwDec).result

/-- A 16-byte all-zero salt, for concrete evaluations. -/
def saltZ : List Nat := List.replicate 16 0

/-- A 24-byte all-zero nonce, for concrete evaluations. -/
def nonceZ : List Nat := List.replicate 24 0

/-- The container produced by encrypting the two-byte file content
`[104, 105]` (the bytes of `hi`) with extension bytes `[116, 120, 116]`
(the bytes of `txt`), password bytes `[7]`, the all-zero salt and
nonce, and the default costs, under the ideal collaborators. -/
def sampleContainer : List Nat :=
  match (encryptModel idealLibs [7] saltZ nonceZ [104, 105] [116, 120, 116]
      19456 2 1).result with
  | Except.ok c => c
  | Except.error _ => []

/-- Index of the last occurrence of `.` in a file name, or `none` when
the name contains no dot.  This is the pivot used by the Rust standard
library's `Path::extension` and `PathBuf::set_extension`, which
`encrypt` calls at `crypt.rs` lines 50 and 117. -/
def lastDot : List Char → Option Nat
  | [] => none
  | c :: cs =>
    match lastDot cs with
    | some i => some (i + 1)
    | none => if c = '.' then some 0 else none

/-- Model of Rust `Path::extension` on a file name: `none` when the
name has no dot, or when its only dot is the leading character (hidden
files); otherwise the portion after the final dot. -/
def rustExtension (f : List Char) : Option (List Char) :=
  match lastDot f with
  | none => none
  | some i => if i = 0 then none else some (f.drop (i + 1))

/-- Model of Rust `PathBuf::set_extension` on a file name: when the
name has no extension the new extension is appended after a dot,
otherwise everything after the final dot is replaced by it. -/
def rustSetExt (f e : List Char) : List Char :=
  match lastDot f with
  | none => f ++ '.' :: e
  | some i => if i = 0 then f ++ '.' :: e else f.take i ++ '.' :: e

/-- The default output file name of `encrypt` when no `--output` is
given (`crypt.rs` lines 48-52): the input name with
`out.set_extension("jj")` applied. -/
def defaultOutName (f : List Char) : List Char :=
  rustSetExt f ['j', 'j']

/-! ## Helper lemmas -/

theorem readExact_some_iff (k : Nat) (s a r : List Nat) :
    readExact k s = some (a, r) ↔ k ≤ s.length ∧ a = s.take k ∧ r = s.drop k := by
  unfold readExact
  split
  · constructor
    · intro h
      injection h with h1
      injection h1 with ha hr
      exact ⟨by assumption, ha.symm, hr.symm⟩
    · rintro ⟨-, ha, hr⟩
      rw [ha, hr]
  · constructor
    · intro h
      exact Option.noConfusion h
    · rintro ⟨hk, -, -⟩
      exact absurd hk (by assumption)

theorem readExact_of_length_eq (k : Nat) (xs ys : List Nat) (h : xs.length = k) :
    readExact k (xs ++ ys) = some (xs, ys) := by
  subst h
  rw [readExact_some_iff]
  refine ⟨by simp, ?_, ?_⟩
  · rw [List.take_left]
  · rw [List.drop_left]

theorem containerBytes_flatten (m t p : Nat) (salt nonce ct : List Nat) :
    containerBytes m t p salt nonce ct =
      MAGIC ++ [VERSION] ++ le32 m ++ le32 t ++ le32 p ++ salt ++ nonce ++
        le64 ct.length ++ ct := by
  simp [containerBytes, writeAll]

theorem packFile_oversized (extBytes fileBytes : List Nat)
    (h : 65535 < extBytes.length) :
    packFile extBytes fileBytes =
      0 :: (le16 65535 ++ (extBytes.take 65535 ++ fileBytes)) := by
  unfold packFile
  rw [if_neg (by omega)]

theorem unpackV1_error_truncated (pkg : List Nat) (e : Err)
    (h : unpackV1 pkg = Except.error e) : e = Err.truncatedPayload := by
  simp only [unpackV1] at h
  repeat' (split at h)
  all_goals simp_all

theorem unpackV2_error_cases (lib : Libs) (pkg : List Nat) (e : Err)
    (h : unpackV2 lib pkg = Except.error e) :
    e = Err.truncatedPayload ∨ e = Err.zstdError := by
  simp only [unpackV2] at h
  repeat' (split at h)
  all_goals simp_all

theorem parseHeader_error_cases (input : List Nat) (e : Err)
    (h : parseHeader input = Except.error e) :
    e = Err.truncatedInput ∨ e = Err.wrongMagic ∨
      ∃ v, e = Err.unsupportedVersion v := by
  simp only [parseHeader] at h
  repeat' (split at h)
  all_goals first
  | (right; right; injection h with h1; exact ⟨_, h1.symm⟩)
  | (left; simp_all; done)
  | (right; left; simp_all)

theorem parseHeader_ok_length (input : List Nat) (hd : Header)
    (h : parseHeader input = Except.ok hd) :
    input.length = 67 + hd.ciphertext.length + hd.rest.length := by
  simp only [parseHeader] at h
  repeat' (split at h)
  all_goals try (exfalso; exact Except.noConfusion h)
  injection h with h1
  subst h1
  simp_all only [readExact_some_iff, List.length_take, List.length_drop]
  omega

theorem MAGIC_length : MAGIC.length = 6 := rfl

theorem le32_length (n : Nat) : (le32 n).length = 4 := rfl

theorem le64_length (n : Nat) : (le64 n).length = 8 := rfl

theorem fromLe32_le32 (n : Nat) (h : n < 4294967296) :
    fromLe32 ((le32 n).getD 0 0) ((le32 n).getD 1 0) ((le32 n).getD 2 0)
      ((le32 n).getD 3 0) = n := by
  show fromLe32 (n % 256) (n / 256 % 256) (n / 65536 % 256)
    (n / 16777216 % 256) = n
  unfold fromLe32
  omega

theorem fromLe64_le64 (n : Nat) (h : n < 18446744073709551616) :
    fromLe64 ((le64 n).getD 0 0) ((le64 n).getD 1 0) ((le64 n).getD 2 0)
      ((le64 n).getD 3 0) ((le64 n).getD 4 0) ((le64 n).getD 5 0)
      ((le64 n).getD 6 0) ((le64 n).getD 7 0) = n := by
  show fromLe64 (n % 256) (n / 256 % 256) (n / 65536 % 256) (n / 16777216 % 256)
    (n / 4294967296 % 256) (n / 1099511627776 % 256)
    (n / 281474976710656 % 256) (n / 72057594037927936 % 256) = n
  unfold fromLe64
  omega

theorem parseHeader_container (m t p : Nat) (salt nonce ct extra : List Nat)
    (hs : salt.length = 16) (hn : nonce.length = 24)
    (hm : m < 4294967296) (ht : t < 4294967296) (hp : p < 4294967296)
    (hc : ct.length < 18446744073709551616) :
    parseHeader (containerBytes m t p salt nonce ct ++ extra) =
      Except.ok ⟨2, m, t, p, salt, nonce, ct, extra⟩ := by
  rw [containerBytes_flatten]
  simp only [List.append_assoc]
  unfold parseHeader
  simp only [readExact_of_length_eq, MAGIC_length, le32_length, le64_length,
    List.length_singleton, hs, hn, List.headD_cons, fromLe32_le32, fromLe64_le64,
    hm, ht, hp, hc]
  rw [if_neg (by simp)]
  rw [if_neg (by simp [VERSION])]
  simp [VERSION]

/-! ## Claim theorems -/

/-- C5, the claim as stated, refuted: for an extension of 65536 bytes
the packaged payload does not carry the full extension byte sequence
after the saturated length prefix; the payload is one byte shorter than
the claim requires. -/
theorem C5_counterexample :
    packFile (List.replicate 65536 97) [] ≠
      0 :: (le16 65535 ++ (List.replicate 65536 97 ++ [])) := by
  intro h
  have hlen : (packFile (List.replicate 65536 97) []).length = 65538 := by
    rw [packFile_oversized (List.replicate 65536 97) []
        (by rw [List.length_replicate]; omega),
      List.length_cons, List.length_append, List.length_append, List.length_take,
      List.length_replicate, List.length_nil]
    norm_num [le16]
  rw [h, List.length_cons, List.length_append, List.length_append,
    List.length_replicate, List.length_nil] at hlen
  norm_num [le16] at hlen

/-- C5 (amended): when the extension exceeds 65535 bytes, the stored
length field saturates to 65535 and the extension bytes written into
the payload are truncated to the first 65535 bytes, matching the
saturated length prefix. -/
theorem C5_oversized_extension_truncated (extBytes fileBytes : List Nat)
    (h : 65535 < extBytes.length) :
    packFile extBytes fileBytes =
      0 :: (le16 65535 ++ (extBytes.take 65535 ++ fileBytes)) :=
  packFile_oversized extBytes fileBytes h

/-- Witness for C5 at an extension of 65536 copies of the byte 97. -/
theorem C5_witness :
    65535 < (List.replicate 65536 97).length ∧
      packFile (List.replicate 65536 97) [] =
        0 :: (le16 65535 ++ ((List.replicate 65536 97).take 65535 ++ [])) :=
  ⟨by rw [List.length_replicate]; omega,
   C5_oversized_extension_truncated (List.replicate 65536 97) []
     (by rw [List.length_replicate]; omega)⟩

/-- C8: the container produced by `encrypt` is exactly the
concatenation, in order, of the 6-byte magic `JJTOOL`, the version
byte 2, the three cost integers as 32-bit little-endian values (memory
cost, time cost, parallelism), the 16-byte salt, the 24-byte nonce, the
ciphertext length as a 64-bit little-endian value, and the ciphertext
bytes. -/
theorem C8_container_layout (m t p : Nat) (salt nonce ct : List Nat) :
    containerBytes m t p salt nonce ct =
      [74, 74, 84, 79, 79, 76] ++ 2 ::
        (le32 m ++ (le32 t ++ (le32 p ++ (salt ++ (nonce ++
          (le64 ct.length ++ ct)))))) := by
  rw [containerBytes_flatten]
  simp [MAGIC, VERSION]

/-- C9: every version-2 payload whose discriminator byte is non-zero is
processed exactly as a `Directory` payload (discriminator 1): the
unpackager never rejects a discriminator value as invalid, it only
distinguishes zero from non-zero. -/
theorem C9_nonzero_discriminator_is_directory (lib : Libs) (d : Nat)
    (rest : List Nat) (h : d ≠ 0) :
    unpackV2 lib (d :: rest) = unpackV2 lib (1 :: rest) := by
  unfold unpackV2
  have hdrop : ∀ a k : Nat, List.drop (3 + k) (a :: rest) = List.drop (2 + k) rest := by
    intro a k
    rw [show 3 + k = (2 + k) + 1 by omega]
    rfl
  simp [h, hdrop]

/-- C1: the round trip fails on empty file content.  Encrypting the
empty byte sequence with extension `txt` produces a container that
`decrypt`, run with the same password, rejects as a truncated payload
(the v2 File branch demands at least one data byte after the
extension), while the same round trip with two bytes of content
succeeds and reproduces the bytes and the extension exactly. -/
theorem C1_empty_file_roundtrip_fails :
    roundtripFile idealLibs [7] [7] saltZ nonceZ [] [116, 120, 116] 19456 2 1 =
        Except.error Err.truncatedPayload ∧
      roundtripFile idealLibs [7] [7] saltZ nonceZ [104, 105] [116, 120, 116]
          19456 2 1 =
        Except.ok (DecOut.file [116, 120, 116] [104, 105]) := by
  decide

/-- C2: decrypting a well-formed container with a password other than
the one used at encryption terminates in a panic (the `.unwrap()` at
`crypt.rs` line 208 on the failed AEAD open), not in an
`AuthenticationError` return; the same container decrypts fine with
the right password.  The panic also skips the zeroize calls. -/
theorem C2_wrong_password_panics :
    (decryptModel idealLibs sampleContainer [8]).result =
        Except.error Err.panicked ∧
      (decryptModel idealLibs sampleContainer [8]).pwZeroized = false ∧
      (decryptModel idealLibs sampleContainer [7]).result =
        Except.ok (DecOut.file [116, 120, 116] [104, 105]) := by
  decide

/-- C4: for every input stream whose version byte is not in the
supported set (1 or 2), `decrypt` fails with the unsupported-version
error before any cryptographic work: the run performs no key
derivation and no AEAD open (its event trace is empty), and the
zeroize calls are likewise never reached. -/
theorem C4_unsupported_version_before_crypto (lib : Libs) (v : Nat)
    (rest pw : List Nat) (h1 : v ≠ 1) (h2 : v ≠ 2) :
    decryptModel lib (MAGIC ++ v :: rest) pw =
      ⟨Except.error (Err.unsupportedVersion v), false, false, []⟩ := by
  have hm : readExact 6 (MAGIC ++ v :: rest) = some (MAGIC, v :: rest) :=
    readExact_of_length_eq 6 MAGIC (v :: rest) rfl
  have hv : readExact 1 (v :: rest) = some ([v], rest) :=
    readExact_of_length_eq 1 [v] rest rfl
  unfold decryptModel parseHeader
  simp only [hm]
  rw [if_neg (by simp)]
  simp only [hv, List.headD_cons, VERSION]
  rw [if_pos ⟨h1, h2⟩]

/-- Witness for C4 at version byte 3 over a 2-byte remainder. -/
theorem C4_witness :
    (3 : Nat) ≠ 1 ∧ (3 : Nat) ≠ 2 ∧
      decryptModel idealLibs (MAGIC ++ 3 :: [0, 1]) [7] =
        ⟨Except.error (Err.unsupportedVersion 3), false, false, []⟩ :=
  ⟨by decide, by decide,
   C4_unsupported_version_before_crypto idealLibs 3 [0, 1] [7]
     (by decide) (by decide)⟩

/-- C6, the claim as stated, refuted: the version-2 payload
`[0, 0, 0]` (File discriminator, declared extension length 0) is long
enough to contain the discriminator, the 2-byte length prefix and the
declared zero-length extension, yet the unpackager rejects it as a
truncated payload. -/
theorem C6_counterexample :
    1 + 2 + fromLe16 0 0 ≤ ([0, 0, 0] : List Nat).length ∧
      unpackV2 idealLibs [0, 0, 0] = Except.error Err.truncatedPayload := by
  decide

/-- C6 (amended): the unpackager checks lengths before slicing and
fails with a truncated-payload error exactly when the payload is too
short — for the legacy shape, too short to contain the 2-byte prefix
and the declared field; for both version-2 variants, too short to
contain the discriminator, the prefix, the declared field and at least
one additional data byte (the v2 branches demand
`pkg.len >= 3 + len + 1`). -/
theorem C6_truncation_exact (lib : Libs) (pkg : List Nat) :
    (unpackV1 pkg = Except.error Err.truncatedPayload ↔
      pkg.length < 2 ∨ pkg.length < 2 + fromLe16 (pkg.getD 0 0) (pkg.getD 1 0)) ∧
    (unpackV2 lib pkg = Except.error Err.truncatedPayload ↔
      pkg.length < 3 ∨ pkg.length < 4 + fromLe16 (pkg.getD 1 0) (pkg.getD 2 0)) := by
  constructor
  · simp only [unpackV1]
    split
    next h1 => exact iff_of_true rfl (by omega)
    next h1 =>
      split
      next h2 => exact iff_of_true rfl (by omega)
      next h2 => exact iff_of_false (by simp) (by omega)
  · simp only [unpackV2]
    split
    next h1 => exact iff_of_true rfl (by omega)
    next h1 =>
      split
      · split
        next h2 => exact iff_of_true rfl (by omega)
        next h2 =>
          split
          next h3 => exact iff_of_true rfl (by omega)
          next h3 => exact iff_of_false (by simp) (by omega)
      · split
        next h2 => exact iff_of_true rfl (by omega)
        next h2 =>
          split
          next h3 => exact iff_of_true rfl (by omega)
          next h3 =>
            cases hz : lib.zstdDecode
                (pkg.drop (3 + fromLe16 (pkg.getD 1 0) (pkg.getD 2 0))) <;>
              exact iff_of_false (by simp) (by omega)

/-- Witness for C9 at discriminator 2 over a 3-byte remainder. -/
theorem C9_witness :
    (2 : Nat) ≠ 0 ∧
      unpackV2 idealLibs (2 :: [0, 0, 5]) = unpackV2 idealLibs (1 :: [0, 0, 5]) :=
  ⟨by decide, C9_nonzero_discriminator_is_directory idealLibs 2 [0, 0, 5] (by decide)⟩

/-- C3, the claim as stated, refuted: calling `encrypt` with an invalid
KDF parameter triple (zero parallelism) returns early with the
invalid-parameters error, and on that exit path neither the password
buffer nor the key buffer has been overwritten — the zeroize calls sit
after the AEAD seal and are never reached. -/
theorem C3_counterexample :
    (encryptModel idealLibs [7] saltZ nonceZ [104, 105] [116, 120, 116]
          19456 2 0).result = Except.error Err.invalidParams ∧
      (encryptModel idealLibs [7] saltZ nonceZ [104, 105] [116, 120, 116]
          19456 2 0).pwZeroized = false ∧
      (encryptModel idealLibs [7] saltZ nonceZ [104, 105] [116, 120, 116]
          19456 2 0).keyZeroized = false := by
  decide

/-- C3 (amended): the password and derived-key buffers are zeroized
exactly on the paths that get past the AEAD step.  In `encrypt` they
are zeroized when the run succeeds, but not on the early error returns
for invalid KDF parameters or key-derivation failure; in `decrypt` they
are zeroized when the run reaches the unpack phase (success or a
truncated-payload failure), but not on the invalid-parameter or
key-derivation error returns, and not when the failed AEAD open
panics. -/
theorem C3_zeroize_only_after_aead (lib : Libs)
    (pw salt nonce content ext input : List Nat) (m t p : Nat) :
    (((encryptModel lib pw salt nonce content ext m t p).result.isOk = true →
        (encryptModel lib pw salt nonce content ext m t p).pwZeroized = true ∧
          (encryptModel lib pw salt nonce content ext m t p).keyZeroized = true) ∧
      ((encryptModel lib pw salt nonce content ext m t p).result =
          Except.error Err.invalidParams →
        (encryptModel lib pw salt nonce content ext m t p).pwZeroized = false ∧
          (encryptModel lib pw salt nonce content ext m t p).keyZeroized = false) ∧
      ((encryptModel lib pw salt nonce content ext m t p).result =
          Except.error Err.kdfFailed →
        (encryptModel lib pw salt nonce content ext m t p).pwZeroized = false ∧
          (encryptModel lib pw salt nonce content ext m t p).keyZeroized = false)) ∧
    (((decryptModel lib input pw).result.isOk = true →
        (decryptModel lib input pw).pwZeroized = true ∧
          (decryptModel lib input pw).keyZeroized = true) ∧
      ((decryptModel lib input pw).result = Except.error Err.truncatedPayload →
        (decryptModel lib input pw).pwZeroized = true ∧
          (decryptModel lib input pw).keyZeroized = true) ∧
      ((decryptModel lib input pw).result = Except.error Err.panicked →
        (decryptModel lib input pw).pwZeroized = false ∧
          (decryptModel lib input pw).keyZeroized = false) ∧
      ((decryptModel lib input pw).result = Except.error Err.invalidParams →
        (decryptModel lib input pw).pwZeroized = false ∧
          (decryptModel lib input pw).keyZeroized = false) ∧
      ((decryptModel lib input pw).result = Except.error Err.kdfFailed →
        (decryptModel lib input pw).pwZeroized = false ∧
          (decryptModel lib input pw).keyZeroized = false)) := by
  constructor
  · unfold encryptModel
    split
    · simp [Except.isOk, Except.toBool]
    · split <;> simp [Except.isOk, Except.toBool]
  · unfold decryptModel
    split
    next e heq =>
      refine ⟨by simp [Except.isOk, Except.toBool], ?_, by simp, by simp, by simp⟩
      intro hcontra
      simp only [Except.error.injEq] at hcontra
      rcases parseHeader_error_cases _ _ heq with hh | hh | ⟨v, hh⟩ <;> simp_all
    next hd heq =>
      split
      · simp [Except.isOk, Except.toBool]
      · split
        · simp [Except.isOk, Except.toBool]
        · split
          · simp [Except.isOk, Except.toBool]
          · refine ⟨by simp, ?_, ?_, ?_, ?_⟩ <;> intro hcontra <;>
              simp only at hcontra
            · simp
            · exfalso
              split at hcontra
              · have := unpackV1_error_truncated _ _ hcontra
                simp_all
              · rcases unpackV2_error_cases _ _ _ hcontra with hh | hh <;> simp_all
            · exfalso
              split at hcontra
              · have := unpackV1_error_truncated _ _ hcontra
                simp_all
              · rcases unpackV2_error_cases _ _ _ hcontra with hh | hh <;> simp_all
            · exfalso
              split at hcontra
              · have := unpackV1_error_truncated _ _ hcontra
                simp_all
              · rcases unpackV2_error_cases _ _ _ hcontra with hh | hh <;> simp_all

/-- Witness for C3: the invalid-parameter early return of `encrypt`
leaves the password un-zeroized, and the authentication-failure panic
of `decrypt` does too. -/
theorem C3_witness :
    ((encryptModel idealLibs [7] saltZ nonceZ [104, 105] [116, 120, 116]
          19456 2 0).pwZeroized = false ∧
        (encryptModel idealLibs [7] saltZ nonceZ [104, 105] [116, 120, 116]
          19456 2 0).keyZeroized = false) ∧
      (decryptModel idealLibs sampleContainer [8]).pwZeroized = false ∧
        (decryptModel idealLibs sampleContainer [8]).keyZeroized = false :=
  ⟨(C3_zeroize_only_after_aead idealLibs [7] saltZ nonceZ [104, 105]
      [116, 120, 116] sampleContainer 19456 2 0).1.2.1 (by decide),
   (C3_zeroize_only_after_aead idealLibs [8] saltZ nonceZ [104, 105]
      [116, 120, 116] sampleContainer 19456 2 0).2.2.2.1 (by decide)⟩
/-- C7, the claim as stated, refuted: a container carrying one extra
byte after its declared ciphertext is not rejected — `decrypt` reads
exactly the declared number of ciphertext bytes, never looks at the
remainder, and succeeds as if the trailing byte were absent. -/
theorem C7_counterexample :
    (decryptModel idealLibs (sampleContainer ++ [9]) [7]).result =
      Except.ok (DecOut.file [116, 120, 116] [104, 105]) := by
  decide

/-- C7 (amended): a successful header parse consumes exactly the
67 fixed header bytes plus the declared ciphertext length, so a stream
that ends before the declared ciphertext is complete never parses; and
the container written by `encrypt`, with any trailing bytes appended,
parses successfully with those trailing bytes left over and ignored
rather than rejected. -/
theorem C7_total_length_framing :
    (∀ input hd, parseHeader input = Except.ok hd →
        input.length = 67 + hd.ciphertext.length + hd.rest.length) ∧
      ∀ m t p : Nat, ∀ salt nonce ct extra : List Nat,
        salt.length = 16 → nonce.length = 24 →
        m < 4294967296 → t < 4294967296 → p < 4294967296 →
        ct.length < 18446744073709551616 →
        parseHeader (containerBytes m t p salt nonce ct ++ extra) =
          Except.ok ⟨2, m, t, p, salt, nonce, ct, extra⟩ :=
  ⟨parseHeader_ok_length,
   fun m t p salt nonce ct extra hs hn hm ht hp hc =>
     parseHeader_container m t p salt nonce ct extra hs hn hm ht hp hc⟩

/-- Witness for C7 at a one-byte ciphertext container with one trailing
byte appended. -/
theorem C7_witness :
    (containerBytes 8 1 1 saltZ nonceZ [5] ++ [9]).length = 67 + 1 + 1 ∧
      parseHeader (containerBytes 8 1 1 saltZ nonceZ [5] ++ [9]) =
        Except.ok ⟨2, 8, 1, 1, saltZ, nonceZ, [5], [9]⟩ :=
  ⟨C7_total_length_framing.1 (containerBytes 8 1 1 saltZ nonceZ [5] ++ [9])
      ⟨2, 8, 1, 1, saltZ, nonceZ, [5], [9]⟩ (by decide),
   C7_total_length_framing.2 8 1 1 saltZ nonceZ [5] [9] (by decide) (by decide)
     (by decide) (by decide) (by decide) (by decide)⟩

theorem lastDot_of_not_mem (ys : List Char) (h : '.' ∉ ys) : lastDot ys = none := by
  induction ys with
  | nil => rfl
  | cons c cs ih =>
    simp only [List.mem_cons, not_or] at h
    simp only [lastDot, ih h.2]
    rw [if_neg (fun hc => h.1 hc.symm)]

theorem lastDot_append_dot (xs ys : List Char) (h : '.' ∉ ys) :
    lastDot (xs ++ '.' :: ys) = some xs.length := by
  induction xs with
  | nil =>
    simp only [List.nil_append, lastDot, lastDot_of_not_mem ys h]
    simp
  | cons c cs ih =>
    rw [List.cons_append]
    unfold lastDot
    rw [ih]
    dsimp only
    rw [List.length_cons]

theorem lastDot_lt_length (f : List Char) (i : Nat) (h : lastDot f = some i) :
    i < f.length := by
  induction f generalizing i with
  | nil => exact Option.noConfusion h
  | cons c cs ih =>
    simp only [lastDot] at h
    cases hcs : lastDot cs with
    | some j =>
      rw [hcs] at h
      injection h with h1
      have := ih j hcs
      simp only [List.length_cons]
      omega
    | none =>
      rw [hcs] at h
      by_cases hc : c = '.'
      · rw [if_pos hc] at h
        injection h with h1
        simp only [List.length_cons]
        omega
      · rw [if_neg hc] at h
        exact Option.noConfusion h

theorem drop_append_dot (xs ys : List Char) :
    (xs ++ '.' :: ys).drop (xs.length + 1) = ys := by
  induction xs with
  | nil => rfl
  | cons c cs ih =>
    rw [List.cons_append, List.length_cons, List.drop_succ_cons, ih]

/-- C10, the claim as stated, refuted: for the input file name `a.jj`
the default output name equals the input name, so the input's original
extension (`jj`) does appear in the default output file name — it is
the output's extension. -/
theorem C10_counterexample :
    rustExtension ['a', '.', 'j', 'j'] = some ['j', 'j'] ∧
      defaultOutName ['a', '.', 'j', 'j'] = ['a', '.', 'j', 'j'] := by
  decide

/-- C10 (amended): with no explicit output path, the container is
written to the input path with `set_extension("jj")` applied — the
final extension is replaced by `jj`, and a name without an extension
gains `.jj`; the resulting name's extension is always `jj`.  The
original extension no longer occupies the extension position by virtue
of being the original, but its byte sequence can still appear in the
output name (for instance when it is itself `jj`). -/
theorem C10_default_output_extension (f : List Char) (h : f ≠ []) :
    defaultOutName f = rustSetExt f ['j', 'j'] ∧
      rustExtension (defaultOutName f) = some ['j', 'j'] := by
  refine ⟨rfl, ?_⟩
  have hjj : ('.' : Char) ∉ (['j', 'j'] : List Char) := by decide
  obtain ⟨k, hk⟩ : ∃ k, f.length = k + 1 := by
    cases f with
    | nil => exact absurd rfl h
    | cons a l => exact ⟨l.length, rfl⟩
  unfold defaultOutName rustSetExt
  cases hld : lastDot f with
  | none =>
    unfold rustExtension
    rw [lastDot_append_dot f _ hjj, hk]
    dsimp only
    rw [if_neg (by omega)]
    rw [show k + 1 + 1 = f.length + 1 by omega]
    rw [drop_append_dot]
  | some i =>
    dsimp only
    by_cases hi : i = 0
    · rw [if_pos hi]
      unfold rustExtension
      rw [lastDot_append_dot f _ hjj, hk]
      dsimp only
      rw [if_neg (by omega)]
      rw [show k + 1 + 1 = f.length + 1 by omega]
      rw [drop_append_dot]
    · rw [if_neg hi]
      unfold rustExtension
      have hlt := lastDot_lt_length f i hld
      have htake : (f.take i).length = i := by
        rw [List.length_take]
        omega
      rw [lastDot_append_dot _ _ hjj, htake]
      dsimp only
      rw [if_neg hi]
      rw [show i + 1 = (f.take i).length + 1 by omega]
      rw [drop_append_dot]

/-- Witness for C10 at the file name `a.txt`, whose default output name
is `a.jj`. -/
theorem C10_witness :
    (['a', '.', 't', 'x', 't'] : List Char) ≠ [] ∧
      defaultOutName ['a', '.', 't', 'x', 't'] =
        rustSetExt ['a', '.', 't', 'x', 't'] ['j', 'j'] ∧
      rustExtension (defaultOutName ['a', '.', 't', 'x', 't']) = some ['j', 'j'] :=
  ⟨by decide, (C10_default_output_extension ['a', '.', 't', 'x', 't'] (by decide)).1,
   (C10_default_output_extension ['a', '.', 't', 'x', 't'] (by decide)).2⟩
